import Mathlib

/-!
Verification of the polymarket trader scripts
(`scripts/categorize-polymarket-traders.py` and
`scripts/crawl-polymarket-traders.py`).

The two scripts are shallowly embedded: the HTTP layer is an oracle
function from requests to outcomes, dictionaries are insertion-ordered
association lists (matching Python dict semantics), and the crawl loop is
fuel-indexed because its source has no intrinsic termination bound.
-/

set_option maxHeartbeats 1600000

/-- A trader record as returned by the analytics API, with the fields the
scripts read.  Numeric fields are modelled as integers; the scripts never
compute with them beyond copying and printing. -/
structure TraderRec where
  trader : String
  trader_name : String
  overall_gain : Int
  win_rate : Int
  total_positions : Nat
  rank : Option Int
  deriving DecidableEq

/-- The single endpoint both scripts POST to. -/
def API_URL : String := "https://polymarketanalytics.com/api/traders-tag-performance"

/-- A POST request body together with the per-request timeout, as built by
`requests.post(API_URL, json={...}, timeout=30)` in the scripts.  The two
optional filter fields are present only in the crawler's requests. -/
structure ApiRequest where
  url : String
  tag : String
  page : Nat
  pageSize : Nat
  sortBy : String
  sortDirection : String
  minWinRate : Option Nat
  minTotalPositions : Option Nat
  timeout : Nat
  deriving DecidableEq

/-- Possible outcomes of one HTTP call: a response with a status code and a
parsed `data` array, a transport-level failure (network/DNS), or hitting
the per-request deadline. -/
inductive HttpOutcome where
  | ok (status : Nat) (data : List TraderRec)
  | transportError (msg : String)
  | timeout
  deriving DecidableEq

/-- Semantics of `response.raise_for_status()` followed by
`response.json().get('data', [])`: statuses 400-599 raise `HTTPError`,
transport errors and timeouts raise `RequestException` subclasses, and a
successful response yields its data array. -/
def httpResult : HttpOutcome → Except String (List TraderRec)
  | HttpOutcome.ok status data =>
      if 400 ≤ status ∧ status < 600 then Except.error "HTTPError" else Except.ok data
  | HttpOutcome.transportError msg => Except.error msg
  | HttpOutcome.timeout => Except.error "ConnectTimeout"

/-- The fixed category list `CATEGORIES` of
`categorize-polymarket-traders.py`. -/
def CATEGORIES : List String :=
  ["Sports", "Politics", "Crypto", "Soccer", "Basketball", "NFL",
   "Tennis", "Trump", "Elections", "Bitcoin", "Ethereum"]

/-- The request `fetch_traders_by_category` builds: page 1, page size
`limit`, sorted by pnl descending, no filter fields, 30-unit timeout. -/
def categoryRequest (category : String) (limit : Nat) : ApiRequest :=
  { url := API_URL
    tag := category
    page := 1
    pageSize := limit
    sortBy := "pnl"
    sortDirection := "desc"
    minWinRate := none
    minTotalPositions := none
    timeout := 30 }

/-- Embedding of `fetch_traders_by_category(category, limit)`: issue one
request; on success return the data array, on any `RequestException`
(transport, timeout or HTTP status error) print the error and return the
empty list.  The first component instruments the requests issued. -/
def fetch_traders_by_category (http : ApiRequest → HttpOutcome) (category : String)
    (limit : Nat) : List ApiRequest × List TraderRec :=
  let req := categoryRequest category limit
  match httpResult (http req) with
  | Except.ok data => ([req], data)
  | Except.error _ => ([req], [])

/-- Ordered-dictionary lookup on an association list (Python `d[k]` /
`k in d` semantics, first occurrence wins). -/
def dlookup [DecidableEq α] (k : α) : List (α × β) → Option β
  | [] => none
  | kv :: rest => if kv.1 = k then some kv.2 else dlookup k rest

/-- The `categorized` dict built by the main loop of
`categorize-polymarket-traders.py`: one entry per category, in the fixed
list order, holding that category's fetched trader list. -/
def buildSnapshot (http : ApiRequest → HttpOutcome) : List (String × List TraderRec) :=
  CATEGORIES.map (fun c => (c, (fetch_traders_by_category http c 100).2))

/-- The requests the main loop issues over a given category list, in
order. -/
def issuedRequestsAux (http : ApiRequest → HttpOutcome) : List String → List ApiRequest
  | [] => []
  | c :: rest => (fetch_traders_by_category http c 100).1 ++ issuedRequestsAux http rest

/-- All requests issued by one run of the category fetcher's main loop. -/
def issuedRequests (http : ApiRequest → HttpOutcome) : List ApiRequest :=
  issuedRequestsAux http CATEGORIES

/-- A concrete oracle on which every request fails at the transport layer. -/
def httpFailAll : ApiRequest → HttpOutcome :=
  fun _ => HttpOutcome.transportError "connection error"

deriving instance DecidableEq for Except

/-- The request body built inside the while-loop of `crawl_traders`:
tag "Overall", the current page, the fixed page size, pnl/descending sort,
both filter fields set, 30-unit timeout. -/
def crawlRequest (min_win_rate min_positions page_size page : Nat) : ApiRequest :=
  { url := API_URL
    tag := "Overall"
    page := page
    pageSize := page_size
    sortBy := "pnl"
    sortDirection := "desc"
    minWinRate := some min_win_rate
    minTotalPositions := some min_positions
    timeout := 30 }

/-- Fuel-indexed embedding of the `while True` loop of `crawl_traders`.
Arguments after the parameters: remaining fuel, current page, accumulator
`all_traders`, and the instrumented list of pages requested so far.
`none` means the fuel ran out before the loop terminated; the source loop
has no termination bound of its own.  On an exception the loop breaks and
keeps the accumulator; an empty page breaks before extending; a short page
breaks after extending; otherwise the page counter advances (the
`time.sleep(0.5)` between pages has no observable effect here). -/
def crawlLoop (http : ApiRequest → HttpOutcome) (min_win_rate min_positions page_size : Nat) :
    Nat → Nat → List TraderRec → List Nat → Option (List TraderRec × List Nat)
  | 0, _, _, _ => none
  | fuel + 1, page, acc, log =>
    match httpResult (http (crawlRequest min_win_rate min_positions page_size page)) with
    | Except.error _ => some (acc, log ++ [page])
    | Except.ok traders =>
      if traders = [] then some (acc, log ++ [page])
      else if traders.length < page_size then some (acc ++ traders, log ++ [page])
      else crawlLoop http min_win_rate min_positions page_size fuel (page + 1)
        (acc ++ traders) (log ++ [page])

/-- Embedding of `crawl_traders(min_win_rate, min_positions, page_size)`:
run the loop from page 1 with an empty accumulator. -/
def crawl_traders (http : ApiRequest → HttpOutcome)
    (min_win_rate min_positions page_size fuel : Nat) :
    Option (List TraderRec × List Nat) :=
  crawlLoop http min_win_rate min_positions page_size fuel 1 [] []

/-- Concatenation of the record lists of `n` consecutive pages starting at
`start`. -/
def concatPages (pages : Nat → List TraderRec) : Nat → Nat → List TraderRec
  | _, 0 => []
  | start, n + 1 => pages start ++ concatPages pages (start + 1) n

/-- Sum of the record counts of `n` consecutive pages starting at `start`. -/
def sumPageLens (pages : Nat → List TraderRec) : Nat → Nat → Nat
  | _, 0 => 0
  | start, n + 1 => (pages start).length + sumPageLens pages (start + 1) n

/-- The list `start, start+1, ..., start+n-1` of page numbers. -/
def pageRange : Nat → Nat → List Nat
  | _, 0 => []
  | start, n + 1 => start :: pageRange (start + 1) n

/-- A quoted JSON string (the script's data contains no characters needing
escapes). -/
def quoteStr (s : String) : String := "\"" ++ s ++ "\""

/-- Serialization of an optional integer field (`null` for `None`). -/
def renderOptInt : Option Int → String
  | none => "null"
  | some n => toString n

/-- Serialization of one trader record as a JSON object. -/
def renderTraderRec (t : TraderRec) : String :=
  "\x7b\"trader\": " ++ quoteStr t.trader
    ++ ", \"trader_name\": " ++ quoteStr t.trader_name
    ++ ", \"overall_gain\": " ++ toString t.overall_gain
    ++ ", \"win_rate\": " ++ toString t.win_rate
    ++ ", \"total_positions\": " ++ toString t.total_positions
    ++ ", \"rank\": " ++ renderOptInt t.rank ++ "\x7d"

/-- Comma-separated serialization of a list of elements. -/
def renderSepList (f : α → String) : List α → String
  | [] => ""
  | [x] => f x
  | x :: rest => f x ++ ", " ++ renderSepList f rest

/-- Serialization of a trader list as a JSON array (the `json.dump` of the
crawler's `traders.json`). -/
def renderTraderList (ts : List TraderRec) : String :=
  "[" ++ renderSepList renderTraderRec ts ++ "]"

/-- A file creation performed by a run. -/
structure FileWrite where
  path : String
  content : String
  deriving DecidableEq

/-- Embedding of the crawler's `main()`: crawl with the fixed filters; if
no traders were found print a message and return without touching the
filesystem, otherwise write `traders.json` and print the summary.  The
result pairs the printed lines with the files written (`none` when the
crawl's fuel ran out). -/
def crawler_main (http : ApiRequest → HttpOutcome) (fuel : Nat) :
    Option (List String × List FileWrite) :=
  match crawl_traders http 67 30 100 fuel with
  | none => none
  | some (traders, _) =>
    if traders = [] then some (["No traders found matching criteria."], [])
    else some (["Total traders: " ++ toString traders.length],
      [{ path := "traders.json", content := renderTraderList traders }])

/-- A sample trader record used by concrete test oracles. -/
def sampleTrader (i : Nat) : TraderRec :=
  { trader := "0x" ++ toString i
    trader_name := "T" ++ toString i
    overall_gain := Int.ofNat i
    win_rate := 1
    total_positions := i
    rank := none }

/-- A concrete three-page response table: two full pages of two records
then a one-record page (page size 2). -/
def pagesW : Nat → List TraderRec := fun i =>
  if i = 1 then [sampleTrader 1, sampleTrader 2]
  else if i = 2 then [sampleTrader 3, sampleTrader 4]
  else if i = 3 then [sampleTrader 5]
  else []

/-- An oracle serving `pagesW` for every page. -/
def httpW : ApiRequest → HttpOutcome := fun r => HttpOutcome.ok 200 (pagesW r.page)

/-- An oracle serving `pagesW` for pages 1-2 and failing at the transport
layer from page 3 on. -/
def httpW3 : ApiRequest → HttpOutcome := fun r =>
  if r.page ≤ 2 then HttpOutcome.ok 200 (pagesW r.page)
  else HttpOutcome.transportError "boom"

/-- An oracle whose every response is success with no records. -/
def httpEmpty : ApiRequest → HttpOutcome := fun _ => HttpOutcome.ok 200 []

/-- Ordered-dictionary assignment `d[k] = v`: update in place when the key
is present (keeping its position), append at the end when it is new. -/
def dictSet [DecidableEq α] (k : α) (v : β) : List (α × β) → List (α × β)
  | [] => [(k, v)]
  | kv :: rest => if kv.1 = k then (k, v) :: rest else kv :: dictSet k v rest

/-- The key sequence of an ordered dictionary. -/
def keys (l : List (α × β)) : List α := l.map Prod.fst

/-- The per-category performance sub-record stored in the lookup:
`{'pnl': ..., 'win_rate': ..., 'positions': ..., 'rank': t.get('rank')}`. -/
structure CatPerf where
  pnl : Int
  win_rate : Int
  positions : Nat
  rank : Option Int
  deriving DecidableEq

/-- One value of the `trader_categories` dict: the display name recorded
at first sight of the trader, plus the per-category sub-dictionary. -/
structure IndexEntry where
  trader_name : String
  categories : List (String × CatPerf)
  deriving DecidableEq

/-- The performance sub-record built from one trader record. -/
def perfOf (t : TraderRec) : CatPerf :=
  { pnl := t.overall_gain
    win_rate := t.win_rate
    positions := t.total_positions
    rank := t.rank }

/-- One iteration of the inner loop building `trader_categories`:
if the address is unseen, insert a fresh entry with the record's display
name and an empty sub-dictionary; then assign this category's performance
into the entry's sub-dictionary. -/
def indexStep (category : String) (t : TraderRec) (idx : List (String × IndexEntry)) :
    List (String × IndexEntry) :=
  let idx1 :=
    if (dlookup t.trader idx).isSome then idx
    else dictSet t.trader { trader_name := t.trader_name, categories := [] } idx
  match dlookup t.trader idx1 with
  | some e =>
      dictSet t.trader { e with categories := dictSet category (perfOf t) e.categories } idx1
  | none => idx1

/-- The `trader_categories` dict derived from a category snapshot by the
double loop `for category, traders in categorized.items(): for t in
traders: ...`. -/
def buildIndex (s : List (String × List TraderRec)) : List (String × IndexEntry) :=
  s.foldl (fun idx ct => ct.2.foldl (fun idx2 t => indexStep ct.1 t idx2) idx) []

/-- The (category, record) pairs of a snapshot in the order the double
loop visits them. -/
def snapshotPairs : List (String × List TraderRec) → List (String × TraderRec)
  | [] => []
  | ct :: rest => ct.2.map (fun t => (ct.1, t)) ++ snapshotPairs rest

/-- The same double loop, flattened over its visit order. -/
def buildIndexAux (pairs : List (String × TraderRec)) (idx : List (String × IndexEntry)) :
    List (String × IndexEntry) :=
  pairs.foldl (fun i p => indexStep p.1 p.2 i) idx

/-- The first visited record carrying a given trader address, if any. -/
def firstRecOf (a : String) : List (String × TraderRec) → Option TraderRec
  | [] => none
  | p :: rest => if p.2.trader = a then some p.2 else firstRecOf a rest

/-- Some visited record carries this trader address. -/
def occursIn (pairs : List (String × TraderRec)) (a : String) : Prop :=
  ∃ p, p ∈ pairs ∧ p.2.trader = a

/-- Some record of the given category carries this trader address. -/
def catOccursIn (pairs : List (String × TraderRec)) (c : String) (a : String) : Prop :=
  ∃ p, p ∈ pairs ∧ p.1 = c ∧ p.2.trader = a

/-- What the loop guarantees of one stored entry: its sub-dictionary keys
are exactly the categories in which the address was seen, without
duplicates, and its display name comes from the first record seen with
that address. -/
def EntryProps (pairs : List (String × TraderRec)) (a : String) (e : IndexEntry) : Prop :=
  (keys e.categories).Nodup
  ∧ (∀ c, c ∈ keys e.categories ↔ catOccursIn pairs c a)
  ∧ (∃ t, firstRecOf a pairs = some t ∧ e.trader_name = t.trader_name)

/-- Loop invariant of the `trader_categories` construction: the keys are
exactly the addresses seen so far, without duplicates, and every stored
entry satisfies `EntryProps`. -/
def IndexInv (pairs : List (String × TraderRec)) (idx : List (String × IndexEntry)) : Prop :=
  (keys idx).Nodup
  ∧ (∀ a, a ∈ keys idx ↔ occursIn pairs a)
  ∧ (∀ a e, dlookup a idx = some e → EntryProps pairs a e)

/-- A record of trader `0x1` under the display name seen first. -/
def snapTop : TraderRec :=
  { trader := "0x1", trader_name := "NameFirst", overall_gain := 10,
    win_rate := 3, total_positions := 4, rank := none }

/-- A later record of the same trader `0x1` under a different name. -/
def snapDup : TraderRec :=
  { trader := "0x1", trader_name := "NameSecond", overall_gain := 20,
    win_rate := 5, total_positions := 6, rank := some 7 }

/-- A concrete snapshot: trader `0x1` appears in two categories under two
different display names, trader `0x2` in the first category only. -/
def snapTest : List (String × List TraderRec) :=
  [("Sports", [snapTop, sampleTrader 2]), ("Politics", [snapDup])]

/-- The index entry `buildIndex snapTest` stores for trader `0x1`. -/
def snapTestEntry : IndexEntry :=
  { trader_name := "NameFirst"
    categories :=
      [("Sports", { pnl := 10, win_rate := 3, positions := 4, rank := none }),
       ("Politics", { pnl := 20, win_rate := 5, positions := 6, rank := some 7 })] }

/-- Stable insertion of a snapshot entry into a list already sorted by
descending trader count: the entry goes before the first element whose
count does not exceed its own.  Folding this from the right reproduces
Python's stable `sorted(categorized.items(), key=lambda x: -len(x[1]))`. -/
def insertByCount (x : String × List TraderRec) :
    List (String × List TraderRec) → List (String × List TraderRec)
  | [] => [x]
  | y :: ys =>
    if y.2.length ≤ x.2.length then x :: y :: ys else y :: insertByCount x ys

/-- The snapshot entries sorted by descending trader count. -/
def sortByCountDesc (s : List (String × List TraderRec)) :
    List (String × List TraderRec) :=
  s.foldr insertByCount []

/-- The data of one line of the final summary: `None` for a category with
an empty trader list (skipped by the `if traders:` guard), otherwise the
category, its trader count, and the top trader's name, PnL and win rate. -/
def summaryEntry (ct : String × List TraderRec) :
    Option (String × Nat × String × Int × Int) :=
  match ct.2 with
  | [] => none
  | top :: _ =>
    some (ct.1, ct.2.length, top.trader_name, top.overall_gain, top.win_rate)

/-- The data lines of the final summary printed by the category fetcher's
main, in print order. -/
def summaryLines (s : List (String × List TraderRec)) :
    List (String × Nat × String × Int × Int) :=
  (sortByCountDesc s).filterMap summaryEntry

/-- Serialization of one snapshot as the JSON object written to
`traders-by-category.json`. -/
def renderSnapshotJson (s : List (String × List TraderRec)) : String :=
  "\x7b" ++ renderSepList (fun ct => quoteStr ct.1 ++ ": " ++ renderTraderList ct.2) s
    ++ "\x7d"

/-- Serialization of one per-category performance sub-record. -/
def renderCatPerf (p : CatPerf) : String :=
  "\x7b\"pnl\": " ++ toString p.pnl
    ++ ", \"win_rate\": " ++ toString p.win_rate
    ++ ", \"positions\": " ++ toString p.positions
    ++ ", \"rank\": " ++ renderOptInt p.rank ++ "\x7d"

/-- Serialization of one trader's lookup entry. -/
def renderIndexEntry (e : IndexEntry) : String :=
  "\x7b\"trader_name\": " ++ quoteStr e.trader_name
    ++ ", \"categories\": \x7b"
    ++ renderSepList (fun cp => quoteStr cp.1 ++ ": " ++ renderCatPerf cp.2) e.categories
    ++ "\x7d\x7d"

/-- Serialization of the lookup as the JSON object written to
`traders-category-lookup.json`. -/
def renderIndexJson (idx : List (String × IndexEntry)) : String :=
  "\x7b" ++ renderSepList (fun ae => quoteStr ae.1 ++ ": " ++ renderIndexEntry ae.2) idx
    ++ "\x7d"

/-- An unvalidated JSON scalar as found in a response record. -/
inductive Jval where
  | jnull
  | jstr (s : String)
  | jint (n : Int)
  deriving DecidableEq

/-- An unvalidated JSON object (a Python dict). -/
abbrev Jobj := List (String × Jval)

/-- Python `t[k]`: the value when the key is present, otherwise `KeyError`
carrying the missing key. -/
def jget (k : String) (o : Jobj) : Except String Jval :=
  match dlookup k o with
  | some v => Except.ok v
  | none => Except.error k

/-- Python `t.get(k)`: the value when present, otherwise `None`. -/
def jgetD (k : String) (o : Jobj) : Jval :=
  match dlookup k o with
  | some v => v
  | none => Jval.jnull

/-- The per-category sub-record of the raw lookup, holding unvalidated
values. -/
structure RawPerf where
  pnl : Jval
  win_rate : Jval
  positions : Jval
  rank : Jval
  deriving DecidableEq

/-- One raw lookup entry: the name value recorded at first sight plus the
per-category sub-dictionary. -/
structure RawEntry where
  trader_name : Jval
  categories : List (String × RawPerf)
  deriving DecidableEq

/-- One iteration of the lookup-building loop over an unvalidated response
record: each subscript access `t[...]` can raise `KeyError` (modelled as
`Except.error` carrying the missing key), in the source's evaluation
order; the `t.get('rank')` access alone cannot fail. -/
def indexStepRaw (category : String) (t : Jobj) (idx : List (Jval × RawEntry)) :
    Except String (List (Jval × RawEntry)) := do
  let addr ← jget "trader" t
  let idx1 ←
    if (dlookup addr idx).isSome then pure idx
    else do
      let name ← jget "trader_name" t
      pure (dictSet addr { trader_name := name, categories := [] } idx)
  let pnl ← jget "overall_gain" t
  let wr ← jget "win_rate" t
  let pos ← jget "total_positions" t
  let rank := jgetD "rank" t
  match dlookup addr idx1 with
  | some e =>
      pure (dictSet addr
        { e with categories :=
            (dictSet category
              ({ pnl := pnl, win_rate := wr, positions := pos, rank := rank })
              e.categories) }
        idx1)
  | none => pure idx1

/-- The lookup-building double loop over unvalidated response records: the
first `KeyError` aborts the whole run. -/
def buildIndexRaw (s : List (String × List Jobj)) :
    Except String (List (Jval × RawEntry)) :=
  s.foldlM (fun idx ct => ct.2.foldlM (fun idx2 t => indexStepRaw ct.1 t idx2) idx) []

theorem fetch_fst (http : ApiRequest → HttpOutcome) (c : String) (l : Nat) :
    (fetch_traders_by_category http c l).1 = [categoryRequest c l] := by
  cases h : httpResult (http (categoryRequest c l)) <;>
    simp [fetch_traders_by_category, h]

theorem fetch_snd_of_error (http : ApiRequest → HttpOutcome) (c : String) (l : Nat)
    (e : String) (h : httpResult (http (categoryRequest c l)) = Except.error e) :
    (fetch_traders_by_category http c l).2 = [] := by
  simp [fetch_traders_by_category, h]

theorem fetch_congr (http http' : ApiRequest → HttpOutcome) (c : String) (l : Nat)
    (h : http (categoryRequest c l) = http' (categoryRequest c l)) :
    fetch_traders_by_category http c l = fetch_traders_by_category http' c l := by
  simp only [fetch_traders_by_category]
  rw [h]

theorem dlookup_map_pair [DecidableEq α] (l : List α) (f : α → β) (c : α) :
    dlookup c (l.map (fun x => (x, f x))) = if c ∈ l then some (f c) else none := by
  induction l with
  | nil => simp [dlookup]
  | cons a t ih =>
    by_cases h : a = c
    · subst h
      simp [dlookup]
    · simp [dlookup, h, ih, List.mem_cons, Ne.symm h]

theorem issuedRequestsAux_eq (http : ApiRequest → HttpOutcome) (l : List String) :
    issuedRequestsAux http l = l.map (fun c => categoryRequest c 100) := by
  induction l with
  | nil => rfl
  | cons a t ih => simp [issuedRequestsAux, fetch_fst, ih]

/-- C1: a transport or HTTP-status failure for one category yields the
empty list for exactly that category's snapshot entry, the main loop still
issues a request for and records an entry for every category, and the
entries of all other categories are unaffected by the failure. -/
theorem c1_category_failure_isolated (http http' : ApiRequest → HttpOutcome)
    (c : String) (e : String) (hc : c ∈ CATEGORIES)
    (hfail : httpResult (http (categoryRequest c 100)) = Except.error e)
    (hagree : ∀ c', c' ≠ c → http (categoryRequest c' 100) = http' (categoryRequest c' 100)) :
    dlookup c (buildSnapshot http) = some []
    ∧ issuedRequests http = CATEGORIES.map (fun cat => categoryRequest cat 100)
    ∧ (buildSnapshot http).map Prod.fst = CATEGORIES
    ∧ ∀ c', c' ≠ c → dlookup c' (buildSnapshot http) = dlookup c' (buildSnapshot http') := by
  refine ⟨?_, ?_, ?_, ?_⟩
  · rw [buildSnapshot, dlookup_map_pair, if_pos hc, fetch_snd_of_error http c 100 e hfail]
  · exact issuedRequestsAux_eq http CATEGORIES
  · simp [buildSnapshot, List.map_map, Function.comp_def]
  · intro c' hne
    rw [buildSnapshot, buildSnapshot, dlookup_map_pair, dlookup_map_pair]
    by_cases hmem : c' ∈ CATEGORIES
    · rw [if_pos hmem, if_pos hmem, fetch_congr http http' c' 100 (hagree c' hne)]
    · rw [if_neg hmem, if_neg hmem]

theorem c1_witness :
    dlookup "Sports" (buildSnapshot httpFailAll) = some []
    ∧ issuedRequests httpFailAll = CATEGORIES.map (fun cat => categoryRequest cat 100)
    ∧ (buildSnapshot httpFailAll).map Prod.fst = CATEGORIES
    ∧ ∀ c', c' ≠ "Sports" →
        dlookup c' (buildSnapshot httpFailAll) = dlookup c' (buildSnapshot httpFailAll) :=
  c1_category_failure_isolated httpFailAll httpFailAll "Sports" "connection error"
    (by decide) (by decide) (fun _ _ => rfl)

/-- C7: for every category the fetcher issues exactly one request, whose
body has page 1, pageSize equal to the limit, pnl/descending sort, no
minimum-win-rate or minimum-positions filters, and a 30-unit timeout; a
call that hits the deadline is treated as an error and yields the empty
list. -/
theorem c7_single_request_shape (http : ApiRequest → HttpOutcome) (c : String) (limit : Nat) :
    (fetch_traders_by_category http c limit).1 = [categoryRequest c limit]
    ∧ (categoryRequest c limit).page = 1
    ∧ (categoryRequest c limit).pageSize = limit
    ∧ (categoryRequest c limit).sortBy = "pnl"
    ∧ (categoryRequest c limit).sortDirection = "desc"
    ∧ (categoryRequest c limit).minWinRate = none
    ∧ (categoryRequest c limit).minTotalPositions = none
    ∧ (categoryRequest c limit).timeout = 30
    ∧ (http (categoryRequest c limit) = HttpOutcome.timeout →
        (fetch_traders_by_category http c limit).2 = []) := by
  refine ⟨fetch_fst http c limit, rfl, rfl, rfl, rfl, rfl, rfl, rfl, ?_⟩
  intro h
  exact fetch_snd_of_error http c limit "ConnectTimeout" (by rw [h]; rfl)

theorem c7_witness :
    (fetch_traders_by_category (fun _ => HttpOutcome.timeout) "Sports" 100).1
      = [categoryRequest "Sports" 100]
    ∧ (categoryRequest "Sports" 100).timeout = 30
    ∧ (fetch_traders_by_category (fun _ => HttpOutcome.timeout) "Sports" 100).2 = [] :=
  ⟨(c7_single_request_shape (fun _ => HttpOutcome.timeout) "Sports" 100).1,
   (c7_single_request_shape (fun _ => HttpOutcome.timeout) "Sports" 100).2.2.2.2.2.2.2.1,
   (c7_single_request_shape (fun _ => HttpOutcome.timeout) "Sports" 100).2.2.2.2.2.2.2.2 rfl⟩

theorem crawlLoop_succ (http : ApiRequest → HttpOutcome)
    (mwr mp ps fuel page : Nat) (acc : List TraderRec) (log : List Nat) :
    crawlLoop http mwr mp ps (fuel + 1) page acc log =
      match httpResult (http (crawlRequest mwr mp ps page)) with
      | Except.error _ => some (acc, log ++ [page])
      | Except.ok traders =>
        if traders = [] then some (acc, log ++ [page])
        else if traders.length < ps then some (acc ++ traders, log ++ [page])
        else crawlLoop http mwr mp ps fuel (page + 1) (acc ++ traders) (log ++ [page]) :=
  rfl

theorem concatPages_snoc (pages : Nat → List TraderRec) (start n : Nat) :
    concatPages pages start (n + 1) = concatPages pages start n ++ pages (start + n) := by
  induction n generalizing start with
  | zero => simp [concatPages]
  | succ m ih =>
    have harith : start + 1 + m = start + (m + 1) := by omega
    calc concatPages pages start (m + 2)
        = pages start ++ concatPages pages (start + 1) (m + 1) := rfl
      _ = pages start ++ (concatPages pages (start + 1) m ++ pages (start + 1 + m)) := by
          rw [ih]
      _ = concatPages pages start (m + 1) ++ pages (start + (m + 1)) := by
          rw [harith]
          simp [concatPages, List.append_assoc]

theorem pageRange_snoc (start n : Nat) :
    pageRange start (n + 1) = pageRange start n ++ [start + n] := by
  induction n generalizing start with
  | zero => simp [pageRange]
  | succ m ih =>
    have harith : start + 1 + m = start + (m + 1) := by omega
    calc pageRange start (m + 2)
        = start :: pageRange (start + 1) (m + 1) := rfl
      _ = start :: (pageRange (start + 1) m ++ [start + 1 + m]) := by rw [ih]
      _ = pageRange start (m + 1) ++ [start + (m + 1)] := by
          rw [harith]
          simp [pageRange]

theorem length_concatPages (pages : Nat → List TraderRec) (start n : Nat) :
    (concatPages pages start n).length = sumPageLens pages start n := by
  induction n generalizing start with
  | zero => rfl
  | succ m ih => simp [concatPages, sumPageLens, List.length_append, ih]

theorem crawlLoop_full_pages (http : ApiRequest → HttpOutcome)
    (mwr mp ps : Nat) (pages : Nat → List TraderRec) (hps : 0 < ps) :
    ∀ (n start : Nat) (acc : List TraderRec) (log : List Nat) (fuel : Nat),
      (∀ i, i < n →
        httpResult (http (crawlRequest mwr mp ps (start + i))) = Except.ok (pages (start + i)))
      → (∀ i, i < n → (pages (start + i)).length = ps)
      → crawlLoop http mwr mp ps (n + fuel) start acc log
          = crawlLoop http mwr mp ps fuel (start + n)
              (acc ++ concatPages pages start n) (log ++ pageRange start n) := by
  intro n
  induction n with
  | zero =>
    intro start acc log fuel _ _
    simp [concatPages, pageRange]
  | succ m ih =>
    intro start acc log fuel hok hfull
    have h0 : httpResult (http (crawlRequest mwr mp ps start)) = Except.ok (pages start) := by
      have := hok 0 (Nat.succ_pos m)
      simpa using this
    have hlen : (pages start).length = ps := by
      have := hfull 0 (Nat.succ_pos m)
      simpa using this
    have hne : ¬ pages start = [] := by
      intro hcon
      rw [hcon] at hlen
      simp at hlen
      omega
    have hnlt : ¬ (pages start).length < ps := by
      rw [hlen]
      exact Nat.lt_irrefl ps
    have hstep : crawlLoop http mwr mp ps (m + 1 + fuel) start acc log
        = crawlLoop http mwr mp ps (m + fuel) (start + 1) (acc ++ pages start) (log ++ [start]) := by
      have harith : m + 1 + fuel = (m + fuel) + 1 := by omega
      rw [harith, crawlLoop_succ, h0]
      simp [hne, hnlt]
    rw [hstep]
    have hok' : ∀ i, i < m →
        httpResult (http (crawlRequest mwr mp ps (start + 1 + i))) = Except.ok (pages (start + 1 + i)) := by
      intro i hi
      have := hok (i + 1) (by omega)
      have harith : start + (i + 1) = start + 1 + i := by omega
      rwa [harith] at this
    have hfull' : ∀ i, i < m → (pages (start + 1 + i)).length = ps := by
      intro i hi
      have := hfull (i + 1) (by omega)
      have harith : start + (i + 1) = start + 1 + i := by omega
      rwa [harith] at this
    rw [ih (start + 1) (acc ++ pages start) (log ++ [start]) fuel hok' hfull']
    have harith : start + 1 + m = start + (m + 1) := by omega
    rw [harith]
    simp [concatPages, pageRange, List.append_assoc]

/-- C2: if every page before page `k` is served in full (`page_size`
records each) and page `k` is served with fewer than `page_size` records
(possibly zero), then for any sufficient fuel the crawl terminates having
requested exactly pages 1 through `k`, and its output is the concatenation
of pages 1 through `k`, whose length is the sum of the pages' record
counts. -/
theorem c2_crawl_terminates_with_all_pages (http : ApiRequest → HttpOutcome)
    (mwr mp ps k : Nat) (pages : Nat → List TraderRec)
    (hps : 0 < ps) (hk : 1 ≤ k)
    (hok : ∀ i, i ≤ k → 1 ≤ i →
      httpResult (http (crawlRequest mwr mp ps i)) = Except.ok (pages i))
    (hfull : ∀ i, i < k → 1 ≤ i → (pages i).length = ps)
    (hlast : (pages k).length < ps) :
    ∀ fuel, k ≤ fuel →
      crawl_traders http mwr mp ps fuel = some (concatPages pages 1 k, pageRange 1 k)
      ∧ (concatPages pages 1 k).length = sumPageLens pages 1 k := by
  intro fuel hf
  refine ⟨?_, length_concatPages pages 1 k⟩
  have hsplit : fuel = (k - 1) + (fuel - (k - 1)) := by omega
  rw [crawl_traders, hsplit]
  have hok' : ∀ i, i < k - 1 →
      httpResult (http (crawlRequest mwr mp ps (1 + i))) = Except.ok (pages (1 + i)) := by
    intro i hi
    exact hok (1 + i) (by omega) (by omega)
  have hfull' : ∀ i, i < k - 1 → (pages (1 + i)).length = ps := by
    intro i hi
    exact hfull (1 + i) (by omega) (by omega)
  rw [crawlLoop_full_pages http mwr mp ps pages hps (k - 1) 1 [] [] (fuel - (k - 1)) hok' hfull']
  have h1k : 1 + (k - 1) = k := by omega
  rw [h1k]
  obtain ⟨m, hm⟩ : ∃ m, fuel - (k - 1) = m + 1 := ⟨fuel - (k - 1) - 1, by omega⟩
  rw [hm, crawlLoop_succ, hok k le_rfl hk]
  have hk1 : k = (k - 1) + 1 := by omega
  have hconcat : concatPages pages 1 k = concatPages pages 1 (k - 1) ++ pages k := by
    rw [hk1, concatPages_snoc]
    have : 1 + (k - 1) = k := by omega
    rw [this, ← hk1]
  have hpr : pageRange 1 k = pageRange 1 (k - 1) ++ [k] := by
    rw [hk1, pageRange_snoc]
    have : 1 + (k - 1) = k := by omega
    rw [this, ← hk1]
  by_cases hemp : pages k = []
  · simp [hemp, hconcat, hpr]
  · simp [hemp, hlast, hconcat, hpr]

theorem c2_witness :
    crawl_traders httpW 67 30 2 3 = some (concatPages pagesW 1 3, pageRange 1 3)
    ∧ (concatPages pagesW 1 3).length = sumPageLens pagesW 1 3 :=
  c2_crawl_terminates_with_all_pages httpW 67 30 2 3 pagesW (by decide) (by decide)
    (by decide) (by decide) (by decide) 3 (by decide)

/-- C3: if pages 1 through N-1 are served in full and the request for page
N fails (transport or HTTP-status error), the crawl stops right there:
pages 1 through N and no others were requested, and the result is exactly
the accumulated records of pages 1 through N-1, in order. -/
theorem c3_crawl_error_keeps_accumulator (http : ApiRequest → HttpOutcome)
    (mwr mp ps N : Nat) (pages : Nat → List TraderRec) (e : String)
    (hps : 0 < ps) (hN : 1 ≤ N)
    (hok : ∀ i, i < N → 1 ≤ i →
      httpResult (http (crawlRequest mwr mp ps i)) = Except.ok (pages i))
    (hfull : ∀ i, i < N → 1 ≤ i → (pages i).length = ps)
    (herr : httpResult (http (crawlRequest mwr mp ps N)) = Except.error e) :
    ∀ fuel, N ≤ fuel →
      crawl_traders http mwr mp ps fuel
        = some (concatPages pages 1 (N - 1), pageRange 1 N) := by
  intro fuel hf
  have hsplit : fuel = (N - 1) + (fuel - (N - 1)) := by omega
  rw [crawl_traders, hsplit]
  have hok' : ∀ i, i < N - 1 →
      httpResult (http (crawlRequest mwr mp ps (1 + i))) = Except.ok (pages (1 + i)) := by
    intro i hi
    exact hok (1 + i) (by omega) (by omega)
  have hfull' : ∀ i, i < N - 1 → (pages (1 + i)).length = ps := by
    intro i hi
    exact hfull (1 + i) (by omega) (by omega)
  rw [crawlLoop_full_pages http mwr mp ps pages hps (N - 1) 1 [] [] (fuel - (N - 1)) hok' hfull']
  have h1N : 1 + (N - 1) = N := by omega
  rw [h1N]
  obtain ⟨m, hm⟩ : ∃ m, fuel - (N - 1) = m + 1 := ⟨fuel - (N - 1) - 1, by omega⟩
  rw [hm, crawlLoop_succ, herr]
  have hN1 : N = (N - 1) + 1 := by omega
  have hpr : pageRange 1 N = pageRange 1 (N - 1) ++ [N] := by
    rw [hN1, pageRange_snoc]
    have : 1 + (N - 1) = N := by omega
    rw [this, ← hN1]
  simp [hpr]

theorem c3_witness :
    crawl_traders httpW3 67 30 2 3 = some (concatPages pagesW 1 2, pageRange 1 3) :=
  c3_crawl_error_keeps_accumulator httpW3 67 30 2 3 pagesW "boom" (by decide) (by decide)
    (by decide) (by decide) (by decide) 3 (by decide)

/-- C9: when the crawl comes back empty, the crawler's main prints the
no-traders message and returns early: no file is created or written. -/
theorem c9_empty_crawl_writes_nothing (http : ApiRequest → HttpOutcome)
    (fuel : Nat) (log : List Nat)
    (h : crawl_traders http 67 30 100 fuel = some ([], log)) :
    crawler_main http fuel = some (["No traders found matching criteria."], []) := by
  rw [crawler_main, h]
  rfl

theorem c9_witness :
    crawler_main httpEmpty 1 = some (["No traders found matching criteria."], []) :=
  c9_empty_crawl_writes_nothing httpEmpty 1 [1] (by decide)

theorem dlookup_dictSet_self [DecidableEq α] (k : α) (v : β) (l : List (α × β)) :
    dlookup k (dictSet k v l) = some v := by
  induction l with
  | nil => simp [dictSet, dlookup]
  | cons kv rest ih =>
    by_cases h : kv.1 = k
    · simp [dictSet, h, dlookup]
    · simp [dictSet, h, dlookup, ih]

theorem dlookup_dictSet_ne [DecidableEq α] {a k : α} (v : β) (l : List (α × β))
    (hne : a ≠ k) :
    dlookup a (dictSet k v l) = dlookup a l := by
  induction l with
  | nil => simp [dictSet, dlookup, Ne.symm hne]
  | cons kv rest ih =>
    by_cases h : kv.1 = k
    · simp [dictSet, h, dlookup, Ne.symm hne]
    · simp [dictSet, h, dlookup, ih]

theorem dictSet_dictSet [DecidableEq α] (k : α) (v v' : β) (l : List (α × β)) :
    dictSet k v' (dictSet k v l) = dictSet k v' l := by
  induction l with
  | nil => simp [dictSet]
  | cons kv rest ih =>
    by_cases h : kv.1 = k
    · simp [dictSet, h]
    · simp [dictSet, h, ih]

theorem keys_cons (kv : α × β) (l : List (α × β)) :
    keys (kv :: l) = kv.1 :: keys l := rfl

theorem dictSet_cons_eq [DecidableEq α] (k : α) (v : β) (kv : α × β)
    (rest : List (α × β)) (h : kv.1 = k) :
    dictSet k v (kv :: rest) = (k, v) :: rest := by
  simp only [dictSet, if_pos h]

theorem dictSet_cons_ne [DecidableEq α] (k : α) (v : β) (kv : α × β)
    (rest : List (α × β)) (h : ¬ kv.1 = k) :
    dictSet k v (kv :: rest) = kv :: dictSet k v rest := by
  simp only [dictSet, if_neg h]

theorem mem_keys_dictSet [DecidableEq α] (a k : α) (v : β) (l : List (α × β)) :
    a ∈ keys (dictSet k v l) ↔ a = k ∨ a ∈ keys l := by
  induction l with
  | nil => simp [dictSet, keys]
  | cons kv rest ih =>
    by_cases h : kv.1 = k
    · rw [dictSet_cons_eq k v kv rest h, keys_cons, keys_cons, h]
      simp only [List.mem_cons]
      tauto
    · rw [dictSet_cons_ne k v kv rest h, keys_cons, keys_cons]
      simp only [List.mem_cons, ih]
      tauto

theorem keys_dictSet_of_mem [DecidableEq α] (k : α) (v : β) (l : List (α × β))
    (h : k ∈ keys l) :
    keys (dictSet k v l) = keys l := by
  induction l with
  | nil => simp [keys] at h
  | cons kv rest ih =>
    by_cases hk : kv.1 = k
    · rw [dictSet_cons_eq k v kv rest hk, keys_cons, keys_cons, hk]
    · have hmem : k ∈ keys rest := by
        rw [keys_cons, List.mem_cons] at h
        rcases h with h1 | h1
        · exact absurd h1.symm hk
        · exact h1
      rw [dictSet_cons_ne k v kv rest hk, keys_cons, keys_cons, ih hmem]

theorem keys_dictSet_of_not_mem [DecidableEq α] (k : α) (v : β) (l : List (α × β))
    (h : k ∉ keys l) :
    keys (dictSet k v l) = keys l ++ [k] := by
  induction l with
  | nil => simp [dictSet, keys]
  | cons kv rest ih =>
    have hk : kv.1 ≠ k := by
      intro hcon
      exact h (by rw [keys_cons]; exact List.mem_cons.2 (Or.inl hcon.symm))
    have hmem : k ∉ keys rest := by
      intro hcon
      exact h (by rw [keys_cons]; exact List.mem_cons_of_mem _ hcon)
    rw [dictSet_cons_ne k v kv rest hk, keys_cons, keys_cons, ih hmem,
      List.cons_append]

theorem nodup_keys_dictSet [DecidableEq α] (k : α) (v : β) (l : List (α × β))
    (h : (keys l).Nodup) :
    (keys (dictSet k v l)).Nodup := by
  by_cases hmem : k ∈ keys l
  · rw [keys_dictSet_of_mem k v l hmem]
    exact h
  · rw [keys_dictSet_of_not_mem k v l hmem]
    simp [List.nodup_append, h, hmem]

theorem dlookup_isSome_iff [DecidableEq α] (a : α) (l : List (α × β)) :
    (dlookup a l).isSome ↔ a ∈ keys l := by
  induction l with
  | nil => simp [dlookup, keys]
  | cons kv rest ih =>
    by_cases h : kv.1 = a
    · simp [dlookup, h, keys]
    · simp [dlookup, h, keys, ih, Ne.symm h]

theorem indexStep_of_mem (c : String) (t : TraderRec) (idx : List (String × IndexEntry))
    (e : IndexEntry) (h : dlookup t.trader idx = some e) :
    indexStep c t idx
      = dictSet t.trader { e with categories := dictSet c (perfOf t) e.categories } idx := by
  simp [indexStep, h]

theorem indexStep_of_not_mem (c : String) (t : TraderRec) (idx : List (String × IndexEntry))
    (h : dlookup t.trader idx = none) :
    indexStep c t idx
      = dictSet t.trader
          { trader_name := t.trader_name, categories := dictSet c (perfOf t) [] } idx := by
  have h2 : dlookup t.trader
      (dictSet t.trader { trader_name := t.trader_name, categories := [] } idx)
      = some { trader_name := t.trader_name, categories := [] } :=
    dlookup_dictSet_self t.trader _ idx
  simp [indexStep, h, h2, dictSet_dictSet]

theorem occursIn_append_single (pairs : List (String × TraderRec))
    (p : String × TraderRec) (a : String) :
    occursIn (pairs ++ [p]) a ↔ occursIn pairs a ∨ p.2.trader = a := by
  constructor
  · rintro ⟨q, hq, ha⟩
    rcases List.mem_append.1 hq with h | h
    · exact Or.inl ⟨q, h, ha⟩
    · rw [List.mem_singleton.1 h] at ha
      exact Or.inr ha
  · rintro (⟨q, hq, ha⟩ | ha)
    · exact ⟨q, List.mem_append_left _ hq, ha⟩
    · exact ⟨p, List.mem_append_right _ (List.mem_singleton.2 rfl), ha⟩

theorem catOccursIn_append_single (pairs : List (String × TraderRec))
    (p : String × TraderRec) (c a : String) :
    catOccursIn (pairs ++ [p]) c a ↔ catOccursIn pairs c a ∨ (p.1 = c ∧ p.2.trader = a) := by
  constructor
  · rintro ⟨q, hq, hc, ha⟩
    rcases List.mem_append.1 hq with h | h
    · exact Or.inl ⟨q, h, hc, ha⟩
    · rw [List.mem_singleton.1 h] at hc ha
      exact Or.inr ⟨hc, ha⟩
  · rintro (⟨q, hq, hc, ha⟩ | ⟨hc, ha⟩)
    · exact ⟨q, List.mem_append_left _ hq, hc, ha⟩
    · exact ⟨p, List.mem_append_right _ (List.mem_singleton.2 rfl), hc, ha⟩

theorem catOccursIn_occursIn (pairs : List (String × TraderRec)) (c a : String)
    (h : catOccursIn pairs c a) : occursIn pairs a := by
  rcases h with ⟨q, hq, _, ha⟩
  exact ⟨q, hq, ha⟩

theorem firstRecOf_append_of_some (a : String) (pairs qs : List (String × TraderRec))
    (t : TraderRec) (h : firstRecOf a pairs = some t) :
    firstRecOf a (pairs ++ qs) = some t := by
  induction pairs with
  | nil => simp [firstRecOf] at h
  | cons p rest ih =>
    by_cases hp : p.2.trader = a
    · simp only [firstRecOf, if_pos hp] at h
      simp only [List.cons_append, firstRecOf, if_pos hp]
      exact h
    · simp only [firstRecOf, if_neg hp] at h
      simp only [List.cons_append, firstRecOf, if_neg hp]
      exact ih h

theorem firstRecOf_append_of_none (a : String) (pairs qs : List (String × TraderRec))
    (h : firstRecOf a pairs = none) :
    firstRecOf a (pairs ++ qs) = firstRecOf a qs := by
  induction pairs with
  | nil => simp
  | cons p rest ih =>
    by_cases hp : p.2.trader = a
    · simp only [firstRecOf, if_pos hp] at h
      exact absurd h (Option.some_ne_none _)
    · simp only [firstRecOf, if_neg hp] at h
      simp only [List.cons_append, firstRecOf, if_neg hp]
      exact ih h

theorem firstRecOf_eq_none_of_not_occurs (a : String) (pairs : List (String × TraderRec))
    (h : ¬ occursIn pairs a) : firstRecOf a pairs = none := by
  induction pairs with
  | nil => rfl
  | cons p rest ih =>
    by_cases hp : p.2.trader = a
    · exact absurd ⟨p, List.mem_cons_self p rest, hp⟩ h
    · simp only [firstRecOf, if_neg hp]
      refine ih ?_
      rintro ⟨q, hq, ha⟩
      exact h ⟨q, List.mem_cons_of_mem p hq, ha⟩

theorem firstRecOf_trader (a : String) (pairs : List (String × TraderRec))
    (t : TraderRec) (h : firstRecOf a pairs = some t) : t.trader = a := by
  induction pairs with
  | nil => simp [firstRecOf] at h
  | cons p rest ih =>
    by_cases hp : p.2.trader = a
    · simp only [firstRecOf, if_pos hp] at h
      injection h with h1
      rw [← h1]
      exact hp
    · simp only [firstRecOf, if_neg hp] at h
      exact ih h

theorem entryProps_extend (pairs : List (String × TraderRec)) (p : String × TraderRec)
    (a : String) (e : IndexEntry) (hne : ¬ p.2.trader = a)
    (h : EntryProps pairs a e) : EntryProps (pairs ++ [p]) a e := by
  obtain ⟨h1, h2, t0, hfr, hname⟩ := h
  refine ⟨h1, ?_, ⟨t0, firstRecOf_append_of_some a pairs [p] t0 hfr, hname⟩⟩
  intro c
  rw [catOccursIn_append_single]
  constructor
  · intro hc
    exact Or.inl ((h2 c).1 hc)
  · rintro (hc | ⟨_, ha⟩)
    · exact (h2 c).2 hc
    · exact absurd ha hne

theorem indexInv_step (pairs : List (String × TraderRec)) (p : String × TraderRec)
    (idx : List (String × IndexEntry)) (hinv : IndexInv pairs idx) :
    IndexInv (pairs ++ [p]) (indexStep p.1 p.2 idx) := by
  obtain ⟨hnd, hmem, hent⟩ := hinv
  cases hdl : dlookup p.2.trader idx with
  | some e =>
    rw [indexStep_of_mem p.1 p.2 idx e hdl]
    have haddr : p.2.trader ∈ keys idx := by
      rw [← dlookup_isSome_iff, hdl]
      rfl
    refine ⟨?_, ?_, ?_⟩
    · rw [keys_dictSet_of_mem _ _ _ haddr]
      exact hnd
    · intro a
      rw [keys_dictSet_of_mem _ _ _ haddr, occursIn_append_single]
      constructor
      · intro ha
        exact Or.inl ((hmem a).1 ha)
      · rintro (ha | ha)
        · exact (hmem a).2 ha
        · rw [← ha]
          exact haddr
    · intro a ea hlk
      by_cases hane : a = p.2.trader
      · subst hane
        rw [dlookup_dictSet_self] at hlk
        injection hlk with hea
        subst hea
        obtain ⟨g1, g2, t0, hfr, hname⟩ := hent p.2.trader e hdl
        refine ⟨?_, ?_, ?_⟩
        · show (keys (dictSet p.1 (perfOf p.2) e.categories)).Nodup
          exact nodup_keys_dictSet _ _ _ g1
        · intro c
          show c ∈ keys (dictSet p.1 (perfOf p.2) e.categories) ↔ _
          rw [mem_keys_dictSet, catOccursIn_append_single]
          constructor
          · rintro (hc | hc)
            · exact Or.inr ⟨hc.symm, rfl⟩
            · exact Or.inl ((g2 c).1 hc)
          · rintro (hc | ⟨hc1, _⟩)
            · exact Or.inr ((g2 c).2 hc)
            · exact Or.inl hc1.symm
        · exact ⟨t0, firstRecOf_append_of_some _ _ _ _ hfr, hname⟩
      · have hlk2 : dlookup a idx = some ea := by
          rwa [dlookup_dictSet_ne _ _ hane] at hlk
        exact entryProps_extend pairs p a ea (fun hcon => hane hcon.symm) (hent a ea hlk2)
  | none =>
    rw [indexStep_of_not_mem p.1 p.2 idx hdl]
    have haddr : p.2.trader ∉ keys idx := by
      rw [← dlookup_isSome_iff, hdl]
      simp
    have hnocc : ¬ occursIn pairs p.2.trader := fun hocc => haddr ((hmem _).2 hocc)
    refine ⟨?_, ?_, ?_⟩
    · exact nodup_keys_dictSet _ _ _ hnd
    · intro a
      rw [mem_keys_dictSet, occursIn_append_single]
      constructor
      · rintro (ha | ha)
        · exact Or.inr ha.symm
        · exact Or.inl ((hmem a).1 ha)
      · rintro (ha | ha)
        · exact Or.inr ((hmem a).2 ha)
        · exact Or.inl ha.symm
    · intro a ea hlk
      by_cases hane : a = p.2.trader
      · subst hane
        rw [dlookup_dictSet_self] at hlk
        injection hlk with hea
        subst hea
        refine ⟨?_, ?_, ?_⟩
        · show (keys (dictSet p.1 (perfOf p.2) [])).Nodup
          simp [dictSet, keys]
        · intro c
          show c ∈ keys (dictSet p.1 (perfOf p.2) []) ↔ _
          rw [mem_keys_dictSet, catOccursIn_append_single]
          constructor
          · rintro (hc | hc)
            · exact Or.inr ⟨hc.symm, rfl⟩
            · simp [keys] at hc
          · rintro (hc | ⟨hc1, _⟩)
            · exact absurd (catOccursIn_occursIn pairs c _ hc) hnocc
            · exact Or.inl hc1.symm
        · refine ⟨p.2, ?_, rfl⟩
          rw [firstRecOf_append_of_none _ _ _ (firstRecOf_eq_none_of_not_occurs _ _ hnocc)]
          simp [firstRecOf]
      · have hlk2 : dlookup a idx = some ea := by
          rwa [dlookup_dictSet_ne _ _ hane] at hlk
        exact entryProps_extend pairs p a ea (fun hcon => hane hcon.symm) (hent a ea hlk2)

theorem indexInv_nil : IndexInv [] [] := by
  refine ⟨List.nodup_nil, ?_, ?_⟩
  · intro a
    simp [keys, occursIn]
  · intro a e h
    simp [dlookup] at h

theorem indexInv_fold : ∀ (pairs proc : List (String × TraderRec))
    (idx : List (String × IndexEntry)),
    IndexInv proc idx → IndexInv (proc ++ pairs) (buildIndexAux pairs idx) := by
  intro pairs
  induction pairs with
  | nil =>
    intro proc idx h
    simpa [buildIndexAux] using h
  | cons p rest ih =>
    intro proc idx h
    have h2 := ih (proc ++ [p]) (indexStep p.1 p.2 idx) (indexInv_step proc p idx h)
    have e2 : proc ++ p :: rest = (proc ++ [p]) ++ rest := by simp
    rw [e2]
    exact h2

theorem buildIndex_go : ∀ (s : List (String × List TraderRec))
    (idx : List (String × IndexEntry)),
    s.foldl (fun idx2 ct => ct.2.foldl (fun idx3 t => indexStep ct.1 t idx3) idx2) idx
      = buildIndexAux (snapshotPairs s) idx := by
  intro s
  induction s with
  | nil =>
    intro idx
    rfl
  | cons ct rest ih =>
    intro idx
    rw [List.foldl_cons, ih]
    show buildIndexAux (snapshotPairs rest) _
      = buildIndexAux (ct.2.map (fun t => (ct.1, t)) ++ snapshotPairs rest) idx
    unfold buildIndexAux
    rw [List.foldl_append, List.foldl_map]

theorem buildIndex_inv (s : List (String × List TraderRec)) :
    IndexInv (snapshotPairs s) (buildIndex s) := by
  have h := indexInv_fold (snapshotPairs s) [] [] indexInv_nil
  rw [List.nil_append] at h
  rw [buildIndex, buildIndex_go]
  exact h

theorem mem_snapshotPairs : ∀ (s : List (String × List TraderRec))
    (c : String) (t : TraderRec),
    (c, t) ∈ snapshotPairs s ↔ ∃ ts, (c, ts) ∈ s ∧ t ∈ ts := by
  intro s
  induction s with
  | nil =>
    intro c t
    simp [snapshotPairs]
  | cons ct rest ih =>
    rcases ct with ⟨c0, ts0⟩
    intro c t
    show (c, t) ∈ ts0.map (fun t => (c0, t)) ++ snapshotPairs rest ↔ _
    constructor
    · intro h
      rcases List.mem_append.1 h with h | h
      · rcases List.mem_map.1 h with ⟨t2, ht2, heq⟩
        injection heq with h1 h2
        subst h1
        subst h2
        exact ⟨ts0, List.mem_cons_self _ _, ht2⟩
      · rcases (ih c t).1 h with ⟨ts, hts, ht⟩
        exact ⟨ts, List.mem_cons_of_mem _ hts, ht⟩
    · rintro ⟨ts, hts, ht⟩
      rcases List.mem_cons.1 hts with h | h
      · injection h with h1 h2
        subst h1
        subst h2
        exact List.mem_append_left _ (List.mem_map.2 ⟨t, ht, rfl⟩)
      · exact List.mem_append_right _ ((ih c t).2 ⟨ts, h, ht⟩)

theorem occursIn_snapshot (s : List (String × List TraderRec)) (a : String) :
    occursIn (snapshotPairs s) a
      ↔ ∃ c ts, (c, ts) ∈ s ∧ ∃ t, t ∈ ts ∧ t.trader = a := by
  constructor
  · rintro ⟨⟨c, t⟩, hp, ha⟩
    rcases (mem_snapshotPairs s c t).1 hp with ⟨ts, hts, ht⟩
    exact ⟨c, ts, hts, t, ht, ha⟩
  · rintro ⟨c, ts, hts, t, ht, ha⟩
    exact ⟨(c, t), (mem_snapshotPairs s c t).2 ⟨ts, hts, ht⟩, ha⟩

theorem catOccursIn_snapshot (s : List (String × List TraderRec)) (c a : String) :
    catOccursIn (snapshotPairs s) c a
      ↔ ∃ ts, (c, ts) ∈ s ∧ ∃ t, t ∈ ts ∧ t.trader = a := by
  constructor
  · rintro ⟨⟨c2, t⟩, hp, hc, ha⟩
    have hc2 : c2 = c := hc
    rw [hc2] at hp
    rcases (mem_snapshotPairs s c t).1 hp with ⟨ts, hts, ht⟩
    exact ⟨ts, hts, t, ht, ha⟩
  · rintro ⟨ts, hts, t, ht, ha⟩
    exact ⟨(c, t), (mem_snapshotPairs s c t).2 ⟨ts, hts, ht⟩, rfl, ha⟩

/-- C4: the derived lookup has exactly one entry per distinct trader
address occurring in any category's list of the snapshot (its keys are
duplicate-free and its key set is exactly the addresses occurring), and
each entry's category sub-dictionary has exactly one key per category
whose list contains a record with that address (stated with the claim's
assumption that an address appears at most once per category list). -/
theorem c4_index_one_entry_per_address (s : List (String × List TraderRec))
    (_hnd : ∀ ct, ct ∈ s → ((ct.2).map TraderRec.trader).Nodup) :
    (keys (buildIndex s)).Nodup
    ∧ (∀ a, a ∈ keys (buildIndex s)
        ↔ ∃ c ts, (c, ts) ∈ s ∧ ∃ t, t ∈ ts ∧ t.trader = a)
    ∧ (∀ a e, dlookup a (buildIndex s) = some e →
        (keys e.categories).Nodup
        ∧ ∀ c, c ∈ keys e.categories
            ↔ ∃ ts, (c, ts) ∈ s ∧ ∃ t, t ∈ ts ∧ t.trader = a) := by
  obtain ⟨h1, h2, h3⟩ := buildIndex_inv s
  refine ⟨h1, ?_, ?_⟩
  · intro a
    rw [h2 a, occursIn_snapshot]
  · intro a e hlk
    obtain ⟨g1, g2, _⟩ := h3 a e hlk
    refine ⟨g1, ?_⟩
    intro c
    rw [g2 c, catOccursIn_snapshot]

theorem c4_witness :
    (keys (buildIndex snapTest)).Nodup
    ∧ (∀ a, a ∈ keys (buildIndex snapTest)
        ↔ ∃ c ts, (c, ts) ∈ snapTest ∧ ∃ t, t ∈ ts ∧ t.trader = a)
    ∧ (∀ a e, dlookup a (buildIndex snapTest) = some e →
        (keys e.categories).Nodup
        ∧ ∀ c, c ∈ keys e.categories
            ↔ ∃ ts, (c, ts) ∈ snapTest ∧ ∃ t, t ∈ ts ∧ t.trader = a) :=
  c4_index_one_entry_per_address snapTest (by decide)

/-- C10: the display name stored for an address in the derived lookup is
the `trader_name` of the first record carrying that address in the order
the loop visits the snapshot (first category in the fixed list order,
first matching record within it); records of the same trader seen later
never change it. -/
theorem c10_name_from_first_category (s : List (String × List TraderRec))
    (a : String) (e : IndexEntry)
    (hlk : dlookup a (buildIndex s) = some e) :
    ∃ t, firstRecOf a (snapshotPairs s) = some t ∧ t.trader = a
      ∧ e.trader_name = t.trader_name := by
  obtain ⟨_, _, h3⟩ := buildIndex_inv s
  obtain ⟨_, _, t, hfr, hname⟩ := h3 a e hlk
  exact ⟨t, hfr, firstRecOf_trader a _ t hfr, hname⟩

theorem c10_witness :
    ∃ t, firstRecOf "0x1" (snapshotPairs snapTest) = some t ∧ t.trader = "0x1"
      ∧ snapTestEntry.trader_name = t.trader_name :=
  c10_name_from_first_category snapTest "0x1" snapTestEntry (by decide)

theorem mem_insertByCount (x y : String × List TraderRec)
    (l : List (String × List TraderRec)) :
    y ∈ insertByCount x l ↔ y = x ∨ y ∈ l := by
  induction l with
  | nil => simp [insertByCount]
  | cons z zs ih =>
    by_cases h : z.2.length ≤ x.2.length
    · rw [insertByCount, if_pos h, List.mem_cons, List.mem_cons]
    · rw [insertByCount, if_neg h, List.mem_cons, ih, List.mem_cons]
      tauto

theorem mem_sortByCountDesc (s : List (String × List TraderRec))
    (y : String × List TraderRec) :
    y ∈ sortByCountDesc s ↔ y ∈ s := by
  induction s with
  | nil => simp [sortByCountDesc]
  | cons x xs ih =>
    show y ∈ insertByCount x (sortByCountDesc xs) ↔ _
    rw [mem_insertByCount, ih, List.mem_cons]

theorem pairwise_insertByCount (x : String × List TraderRec)
    (l : List (String × List TraderRec))
    (h : l.Pairwise (fun a b => b.2.length ≤ a.2.length)) :
    (insertByCount x l).Pairwise (fun a b => b.2.length ≤ a.2.length) := by
  induction l with
  | nil => simp [insertByCount]
  | cons z zs ih =>
    rcases List.pairwise_cons.1 h with ⟨hz, hzs⟩
    by_cases hle : z.2.length ≤ x.2.length
    · rw [insertByCount, if_pos hle]
      refine List.pairwise_cons.2 ⟨?_, h⟩
      intro b hb
      rcases List.mem_cons.1 hb with rfl | hb
      · exact hle
      · exact le_trans (hz b hb) hle
    · rw [insertByCount, if_neg hle]
      refine List.pairwise_cons.2 ⟨?_, ih hzs⟩
      intro b hb
      rcases (mem_insertByCount x b zs).1 hb with rfl | hb
      · omega
      · exact hz b hb

theorem sorted_sortByCountDesc (s : List (String × List TraderRec)) :
    (sortByCountDesc s).Pairwise (fun a b => b.2.length ≤ a.2.length) := by
  induction s with
  | nil => simp [sortByCountDesc]
  | cons x xs ih => exact pairwise_insertByCount x _ ih

theorem pairwise_filterMap_of (f : α → Option β) (r : α → α → Prop) (q : β → β → Prop)
    (hpres : ∀ a b x y, r a b → f a = some x → f b = some y → q x y) :
    ∀ l : List α, l.Pairwise r → (l.filterMap f).Pairwise q := by
  intro l
  induction l with
  | nil =>
    intro _
    simp
  | cons a t ih =>
    intro h
    rcases List.pairwise_cons.1 h with ⟨ha, ht⟩
    cases hfa : f a with
    | none => simpa [List.filterMap_cons, hfa] using ih ht
    | some x =>
      rw [List.filterMap_cons_some hfa]
      refine List.pairwise_cons.2 ⟨?_, ih ht⟩
      intro y hy
      rcases List.mem_filterMap.1 hy with ⟨b, hb, hfb⟩
      exact hpres a b x y (ha b hb) hfa hfb

theorem summaryEntry_count (ct : String × List TraderRec)
    (x : String × Nat × String × Int × Int) (h : summaryEntry ct = some x) :
    x.2.1 = ct.2.length := by
  cases hct : ct.2 with
  | nil => simp [summaryEntry, hct] at h
  | cons top rest =>
    simp only [summaryEntry, hct] at h
    injection h with h1
    rw [← h1]

/-- C6 as written is refuted: a category whose request failed is present
in the snapshot with an empty trader list, yet the summary loop's
`if traders:` guard skips it, so the summary prints no line for it.  With
every request failing, every category is in the snapshot but the summary
is empty. -/
theorem c6_counterexample :
    ("Sports", ([] : List TraderRec)) ∈ buildSnapshot httpFailAll
    ∧ summaryLines (buildSnapshot httpFailAll) = [] := by
  constructor
  · decide
  · decide

/-- C6 (amended): the final summary contains, for every category of the
snapshot whose trader list is nonempty, a line with that category's trader
count and its top (first) trader's name, PnL and win rate; its lines are
ordered by descending trader count; and every line comes from such a
nonempty category.  Categories with empty lists are omitted. -/
theorem c6_summary_ranked_nonempty (s : List (String × List TraderRec)) :
    (∀ c top rest, (c, top :: rest) ∈ s →
      (c, (top :: rest).length, top.trader_name, top.overall_gain, top.win_rate)
        ∈ summaryLines s)
    ∧ (summaryLines s).Pairwise (fun e1 e2 => e2.2.1 ≤ e1.2.1)
    ∧ (∀ e, e ∈ summaryLines s → ∃ top rest, (e.1, top :: rest) ∈ s
        ∧ e = (e.1, (top :: rest).length, top.trader_name, top.overall_gain,
            top.win_rate)) := by
  refine ⟨?_, ?_, ?_⟩
  · intro c top rest hmem
    refine List.mem_filterMap.2 ⟨(c, top :: rest), (mem_sortByCountDesc s _).2 hmem, rfl⟩
  · refine pairwise_filterMap_of summaryEntry _ _ ?_ _ (sorted_sortByCountDesc s)
    intro a b x y hr hfa hfb
    rw [summaryEntry_count a x hfa, summaryEntry_count b y hfb]
    exact hr
  · intro e he
    rcases List.mem_filterMap.1 he with ⟨ct, hct, hse⟩
    have hcts : ct ∈ s := (mem_sortByCountDesc s ct).1 hct
    cases hct2 : ct.2 with
    | nil => simp [summaryEntry, hct2] at hse
    | cons top rest =>
      simp only [summaryEntry, hct2] at hse
      injection hse with h1
      refine ⟨top, rest, ?_, ?_⟩
      · rw [← h1]
        show (ct.1, top :: rest) ∈ s
        rw [← hct2]
        exact hcts
      · rw [← h1]

theorem c6_witness :
    ("Sports", 2, snapTop.trader_name, snapTop.overall_gain, snapTop.win_rate)
      ∈ summaryLines snapTest
    ∧ (summaryLines snapTest).Pairwise (fun e1 e2 => e2.2.1 ≤ e1.2.1) :=
  ⟨(c6_summary_ranked_nonempty snapTest).1 "Sports" snapTop [sampleTrader 2] (by decide),
   (c6_summary_ranked_nonempty snapTest).2.1⟩

theorem snapshot_map_congr (http1 http2 : ApiRequest → HttpOutcome) :
    ∀ l : List String,
    (∀ c, c ∈ l → http1 (categoryRequest c 100) = http2 (categoryRequest c 100)) →
    l.map (fun c => (c, (fetch_traders_by_category http1 c 100).2))
      = l.map (fun c => (c, (fetch_traders_by_category http2 c 100).2)) := by
  intro l
  induction l with
  | nil =>
    intro _
    rfl
  | cons a t ih =>
    intro h
    rw [List.map_cons, List.map_cons, ih (fun c hc => h c (List.mem_cons_of_mem a hc)),
      fetch_congr http1 http2 a 100 (h a (List.mem_cons_self a t))]

/-- C5: the category fetcher is deterministic: two runs whose oracles give
identical responses for every category of the fixed list produce the same
snapshot and lookup, hence byte-identical serialized contents of
`traders-by-category.json` and `traders-category-lookup.json`. -/
theorem c5_deterministic_output (http1 http2 : ApiRequest → HttpOutcome)
    (h : ∀ c, c ∈ CATEGORIES →
      http1 (categoryRequest c 100) = http2 (categoryRequest c 100)) :
    renderSnapshotJson (buildSnapshot http1) = renderSnapshotJson (buildSnapshot http2)
    ∧ renderIndexJson (buildIndex (buildSnapshot http1))
        = renderIndexJson (buildIndex (buildSnapshot http2)) := by
  have hs : buildSnapshot http1 = buildSnapshot http2 :=
    snapshot_map_congr http1 http2 CATEGORIES h
  rw [buildSnapshot] at hs
  rw [buildSnapshot, buildSnapshot, hs]
  exact ⟨rfl, rfl⟩

theorem c5_witness :
    renderSnapshotJson (buildSnapshot httpFailAll)
      = renderSnapshotJson (buildSnapshot httpFailAll)
    ∧ renderIndexJson (buildIndex (buildSnapshot httpFailAll))
        = renderIndexJson (buildIndex (buildSnapshot httpFailAll)) :=
  c5_deterministic_output httpFailAll httpFailAll (fun _ _ => rfl)

/-- C8: the record-field accesses of the lookup-building loop are
unguarded: for each of the five expected keys (`trader`, `trader_name`,
`overall_gain`, `win_rate`, `total_positions`) there is a response whose
record lacks exactly that key and on which the run aborts with a
`KeyError` naming it; a record with all five keys but no `rank` key
succeeds, since `rank` is read with `.get`. -/
theorem c8_missing_key_aborts_run :
    buildIndexRaw [("Sports", [[("trader_name", Jval.jstr "A")]])]
      = Except.error "trader"
    ∧ buildIndexRaw [("Sports", [[("trader", Jval.jstr "0x1")]])]
      = Except.error "trader_name"
    ∧ buildIndexRaw [("Sports",
        [[("trader", Jval.jstr "0x1"), ("trader_name", Jval.jstr "A")]])]
      = Except.error "overall_gain"
    ∧ buildIndexRaw [("Sports",
        [[("trader", Jval.jstr "0x1"), ("trader_name", Jval.jstr "A"),
          ("overall_gain", Jval.jint 5)]])]
      = Except.error "win_rate"
    ∧ buildIndexRaw [("Sports",
        [[("trader", Jval.jstr "0x1"), ("trader_name", Jval.jstr "A"),
          ("overall_gain", Jval.jint 5), ("win_rate", Jval.jint 1)]])]
      = Except.error "total_positions"
    ∧ buildIndexRaw [("Sports",
        [[("trader", Jval.jstr "0x1"), ("trader_name", Jval.jstr "A"),
          ("overall_gain", Jval.jint 5), ("win_rate", Jval.jint 1),
          ("total_positions", Jval.jint 3)]])]
      = Except.ok [(Jval.jstr "0x1",
          { trader_name := Jval.jstr "A"
            categories := [("Sports",
              { pnl := Jval.jint 5, win_rate := Jval.jint 1,
                positions := Jval.jint 3, rank := Jval.jnull })] })] :=
  ⟨rfl, rfl, rfl, rfl, rfl, rfl⟩
